import Mathlib

/-
Verification of the TeamSpeak-to-Discord presence bridge core
(src/index.ts): response decoding, client-list parsing, snapshot
signatures, publish decision, departure tracking, and query-command
framing.

JavaScript strings are modelled as `List Char`; JS `Map`/`Set` values
are modelled as association lists / lists with membership, which is the
granularity at which the program observes them.  Fallible operations
(the SSH query round-trip) are modelled as `Except`/`Option` values.
-/

/-- Coerce a Lean string literal to the `List Char` model of JS strings. -/
def str (s : String) : List Char := s.data

/-- JS `String.prototype.split` on a single separator character:
`"a  b".split(" ") = ["a","","b"]`, `"".split(" ") = [""]`. -/
def splitOnChar (sep : Char) : List Char → List (List Char)
  | [] => [[]]
  | c :: rest =>
    if c = sep then [] :: splitOnChar sep rest
    else
      match splitOnChar sep rest with
      | [] => [[c]]
      | x :: xs => (c :: x) :: xs

/-- Split a token at its first `=` (JS `indexOf("=")` + two slices);
`none` in the second component means the token had no `=`. -/
def splitFirstEq : List Char → List Char × Option (List Char)
  | [] => ([], none)
  | c :: rest =>
    if c = '=' then ([], some rest)
    else
      match splitFirstEq rest with
      | (k, v) => (c :: k, v)

/-- One global-replace pass of the two-character pattern `a,b` by `rep`,
left to right without rescanning the replacement, exactly the semantics
of JS `value.replace(/ab/g, rep)` for a fixed two-character pattern. -/
def replaceAll2 (a b : Char) (rep : List Char) : List Char → List Char
  | [] => []
  | [c] => [c]
  | c :: d :: rest =>
    if c = a ∧ d = b then rep ++ replaceAll2 a b rep rest
    else c :: replaceAll2 a b rep (d :: rest)

/-- `decodeQueryValue` from src/index.ts: the seven `.replace` passes in
source order (escaped space, pipe, backslash, slash, then n/r/t). -/
def decodeQueryValue (value : List Char) : List Char :=
  replaceAll2 '\\' 't' ['\t']
    (replaceAll2 '\\' 'r' ['\r']
      (replaceAll2 '\\' 'n' ['\n']
        (replaceAll2 '\\' '/' ['/']
          (replaceAll2 '\\' '\\' ['\\']
            (replaceAll2 '\\' 'p' ['|']
              (replaceAll2 '\\' 's' [' '] value))))))

/-- `parsePairs` from src/index.ts.  The JS object is modelled as the
association list of assignments in source order; a later assignment to
the same key overwrites an earlier one, so lookups read the last
binding (`getField`). -/
def parsePairs (record : List Char) : List (List Char × List Char) :=
  (splitOnChar ' ' record).filterMap (fun pair =>
    if pair = [] then none
    else
      match splitFirstEq pair with
      | (k, none) => some (k, [])
      | (k, some v) => some (k, decodeQueryValue v))

/-- Read a field of a parsed record: the last assignment wins, absent
keys give `none` (JS `undefined`). -/
def getField (r : List (List Char × List Char)) (k : List Char) : Option (List Char) :=
  (r.reverse.find? (fun kv => kv.1 == k)).map (fun kv => kv.2)

/-- The `ActiveClient` record type from src/index.ts. -/
structure ActiveClient where
  clid : List Char
  uid : List Char
  name : List Char
  channelId : List Char
  channelName : List Char
  inputMuted : Bool
  outputMuted : Bool
  away : Bool
  streaming : Bool
  connectedMs : Option Int
deriving DecidableEq, Repr

/-- JS `Number(s)` restricted to the optionally-signed decimal integer
strings the protocol sends for connected times; `none` models `NaN`
(any non-numeric string).  Callers guard the empty string before
converting, so its JS value `0` is never observed. -/
def jsToNumber (s : List Char) : Option Int :=
  match s with
  | '-' :: rest =>
    if rest ≠ [] ∧ rest.all Char.isDigit then
      some (-(Int.ofNat (rest.foldl (fun n c => 10 * n + (c.toNat - 48)) 0)))
    else none
  | _ =>
    if s ≠ [] ∧ s.all Char.isDigit then
      some (Int.ofNat (s.foldl (fun n c => 10 * n + (c.toNat - 48)) 0))
    else none

/-- The per-record body of the `.map` inside `parseClientList`. -/
def buildClient (channelNameById : List (List Char × List Char))
    (client : List (List Char × List Char)) : ActiveClient :=
  let channelId := (getField client (str "cid")).getD []
  let connectedRaw := (getField client (str "client_connected_time")).getD []
  let connectedMs : Option Int := if connectedRaw = [] then none else jsToNumber connectedRaw
  { clid := (getField client (str "clid")).getD []
    uid := ((getField client (str "client_unique_identifier")).or
      (getField client (str "clid"))).getD []
    name := (getField client (str "client_nickname")).getD (str "Unknown")
    channelId := channelId
    channelName := (getField channelNameById channelId).getD (str "Unknown channel")
    inputMuted := getField client (str "client_input_muted") == some (str "1")
      || getField client (str "client_input_hardware") == some (str "0")
    outputMuted := getField client (str "client_output_muted") == some (str "1")
      || getField client (str "client_output_hardware") == some (str "0")
    away := getField client (str "client_away") == some (str "1")
    streaming := getField client (str "client_is_streaming") == some (str "1")
      || getField client (str "client_is_recording") == some (str "1")
    connectedMs := connectedMs }

/-- `parseClientList` from src/index.ts: empty or error-prefixed payload
gives `[]`; otherwise split on `|`, parse each record, keep only real
user sessions (`client_type = "0"`), build the client, and drop any
client whose name, clid or uid is empty. -/
def parseClientList (payloadLine : List Char)
    (channelNameById : List (List Char × List Char)) : List ActiveClient :=
  if payloadLine = [] ∨ (str "error ").isPrefixOf payloadLine then []
  else
    ((((splitOnChar '|' payloadLine).map parsePairs).filter
        (fun client => getField client (str "client_type") == some (str "0"))).map
      (buildClient channelNameById)).filter
      (fun client => !client.name.isEmpty && !client.clid.isEmpty && !client.uid.isEmpty)

/-- `effectiveAudioState` from src/index.ts: output-mute dominates
input-mute. -/
def effectiveAudioState (client : ActiveClient) : List Char :=
  if client.outputMuted then str "deafened"
  else if client.inputMuted then str "muted"
  else str "unmuted"

/-- JS `Array.prototype.join(sep)`. -/
def joinSep (sep : List Char) : List (List Char) → List Char
  | [] => []
  | [x] => x
  | x :: xs => x ++ sep ++ joinSep sep xs

/-- The per-client line of the signature (the `.map` body inside
`signatureForClients`). -/
def clientKey (client : ActiveClient) : List Char :=
  joinSep (str "|")
    [client.uid, client.name, client.channelId, effectiveAudioState client,
      if client.away then str "1" else str "0",
      if client.streaming then str "1" else str "0"]

/-- `signatureForClients` from src/index.ts.  The JS sort under
`localeCompare` is modelled as sorting under the lexicographic order on
`List Char`. -/
def signatureForClients (clients : List ActiveClient) : List Char :=
  joinSep (str "\n") (List.insertionSort (· ≤ ·) (clients.map clientKey))

example : signatureForClients [] = [] := by decide

/-- Substring test (JS `String.prototype.includes`). -/
def containsSub (s pat : List Char) : Bool :=
  (List.tails s).any (fun t => pat.isPrefixOf t)

/-- The characters removed by JS `String.prototype.trim` that can occur
in this line-oriented protocol. -/
def isTrimChar (c : Char) : Bool :=
  c == ' ' || c == '\t' || c == '\n' || c == '\r'

/-- JS `line.trim()`. -/
def jsTrim (s : List Char) : List Char :=
  ((s.dropWhile isTrimChar).reverse.dropWhile isTrimChar).reverse

/-- What `readUntilErrorLine` does with one completed, trimmed line:
empty lines are skipped, a line starting with the terminal marker ends
the read, any other line is collected before the rest of the buffer is
processed. -/
def lineStep (line : List Char) (rest : Option (List (List Char))) :
    Option (List (List Char)) :=
  if line = [] then rest
  else if (str "error id=").isPrefixOf line then some [line]
  else rest.map (fun ls => line :: ls)

/-- The line-extraction loop of `readUntilErrorLine` from src/index.ts,
as a pure function of the received bytes.  `cur` accumulates the
characters (reversed) of the line being read; a `\n` or `\r` ends a
line, with `\r\n` / `\n\r` consumed as one two-byte terminator.
`none` means the buffer holds no complete response yet (the real client
would keep awaiting data and eventually time out). -/
def readLoop (cur : List Char) : List Char → Option (List (List Char))
  | [] => none
  | [c] =>
    if c = '\n' ∨ c = '\r' then lineStep (jsTrim cur.reverse) none
    else none
  | c :: d :: rest =>
    if c = '\n' ∨ c = '\r' then
      if (c = '\r' ∧ d = '\n') ∨ (c = '\n' ∧ d = '\r') then
        lineStep (jsTrim cur.reverse) (readLoop [] rest)
      else
        lineStep (jsTrim cur.reverse) (readLoop [] (d :: rest))
    else readLoop (c :: cur) (d :: rest)

/-- `readUntilErrorLine` from src/index.ts on a received buffer. -/
def readUntilErrorLine (buf : List Char) : Option (List (List Char)) :=
  readLoop [] buf

/-- The error thrown by `command` on a non-zero status: the raw `id`
field (`none` models JS `undefined`) and the decoded message. -/
structure QueryError where
  id : Option (List Char)
  msg : List Char
deriving DecidableEq, Repr

/-- `command` from src/index.ts, given the bytes the server answered
with: frame the reply with `readUntilErrorLine`, locate the last line
containing the terminal marker, parse it, and either fail with its
status or return the body lines (all lines but the last). -/
def command (buf : List Char) : Option (Except QueryError (List (List Char))) :=
  (readUntilErrorLine buf).map (fun lines =>
    let errorLine := ((lines.reverse.find?
      (fun line => containsSub line (str "error id="))).getD [])
    let error := parsePairs errorLine
    if getField error (str "id") = some (str "0") then
      Except.ok lines.dropLast
    else
      Except.error
        { id := getField error (str "id")
          msg := (getField error (str "msg")).getD
            (str "Unknown TeamSpeak query error") })

/-- The body of the per-client loop of `fillConnectedTimes` after a
successful `clientinfo` round-trip. -/
def enrichClient (client : ActiveClient) (infoLines : List (List Char)) : ActiveClient :=
  let payload := ((infoLines.find? (fun line => containsSub line (str "client_type="))).or
    infoLines.head?).getD []
  let info := parsePairs payload
  let raw := ((getField info (str "connection_connected_time")).or
    (getField info (str "client_connected_time"))).getD []
  let ms : Option Int := if raw = [] then none else jsToNumber raw
  let withTime :=
    match ms with
    | some m => if 0 ≤ m then { client with connectedMs := some m } else client
    | none => client
  { withTime with
    streaming := getField info (str "client_is_streaming") == some (str "1")
      || getField info (str "client_is_recording") == some (str "1") }

/-- `fillConnectedTimes` from src/index.ts.  The per-client
`clientinfo` round-trip is modelled by `lookup`; `Except.error` is a
thrown command, which the `try`/`catch` swallows leaving the client
untouched. -/
def fillConnectedTimes (lookup : List Char → Except Unit (List (List Char)))
    (clients : List ActiveClient) : List ActiveClient :=
  clients.map (fun client =>
    match lookup client.clid with
    | Except.error _ => client
    | Except.ok infoLines => enrichClient client infoLines)

/-- The module-level publish state of src/index.ts
(`lastPublishedSignature`, `lastPublishedAt`). -/
structure PublishState where
  lastPublishedSignature : Option (List Char)
  lastPublishedAt : Int
deriving DecidableEq, Repr

/-- The publish decision of `syncLoop`
(`signature !== lastPublishedSignature || now - lastPublishedAt >= forcedRefreshMs`). -/
def shouldPublish (st : PublishState) (signature : List Char) (now forcedRefreshMs : Int) : Bool :=
  some signature != st.lastPublishedSignature
    || decide (now - st.lastPublishedAt ≥ forcedRefreshMs)

/-- One pass of the publish branch of `syncLoop`: on a publish the new
signature and the current time become the last-published state. -/
def publishStep (st : PublishState) (signature : List Char) (now forcedRefreshMs : Int) :
    Bool × PublishState :=
  if shouldPublish st signature now forcedRefreshMs then
    (true, { lastPublishedSignature := some signature, lastPublishedAt := now })
  else (false, st)

/-- `RECENTLY_LEFT_WINDOW_MS` from src/index.ts. -/
def recentlyLeftWindowMs : Int := 30 * 60 * 1000

/-- JS `Map.prototype.set` on the association-list model: replace any
binding of the key and bind it to the new value. -/
def mapSet (m : List (List Char × (List Char × Int))) (k : List Char)
    (v : List Char × Int) : List (List Char × (List Char × Int)) :=
  m.filter (fun kv => kv.1 != k) ++ [(k, v)]

/-- JS `Map.prototype.set` for the name cache. -/
def nameSet (m : List (List Char × List Char)) (k v : List Char) :
    List (List Char × List Char) :=
  m.filter (fun kv => kv.1 != k) ++ [(k, v)]

/-- JS `Map.prototype.get` (`none` = `undefined`). -/
def nameGet (m : List (List Char × List Char)) (k : List Char) : Option (List Char) :=
  (m.find? (fun kv => kv.1 == k)).map (fun kv => kv.2)

/-- The module-level membership/departure state of src/index.ts
(`lastClientIds`, `recentlyLeft`, `lastKnownNames`). -/
structure TrackerState where
  lastClientIds : Option (List (List Char))
  recentlyLeft : List (List Char × (List Char × Int))
  lastKnownNames : List (List Char × List Char)

/-- The observe part of one `syncLoop` iteration (src/index.ts lines
577-607 and 616): compute current ids and joined names, refresh the
name cache, record a departure for every previously-present id now
absent, purge departure records that reappeared or aged past the
window, and store the current id set.  Returns the new state and the
joined-name list. -/
def observeStep (st : TrackerState) (clients : List ActiveClient) (now : Int) :
    TrackerState × List (List Char) :=
  let currentIds := clients.map (fun c => c.uid)
  let joinedNames :=
    match st.lastClientIds with
    | none => []
    | some prev => (clients.filter (fun c => !prev.contains c.uid)).map (fun c => c.name)
  let names := clients.foldl (fun m c => nameSet m c.uid c.name) st.lastKnownNames
  let afterDepartures :=
    match st.lastClientIds with
    | none => st.recentlyLeft
    | some prev =>
      prev.foldl (fun m prevId =>
        if currentIds.contains prevId then m
        else mapSet m prevId ((nameGet names prevId).getD (str "Unknown"), now)) st.recentlyLeft
  let purged := afterDepartures.filter (fun kv =>
    !(currentIds.contains kv.1 || decide (now - kv.2.2 > recentlyLeftWindowMs)))
  ({ lastClientIds := some currentIds, recentlyLeft := purged, lastKnownNames := names },
    joinedNames)

/-- Modelled from the spec: the remote encoder is not part of this
repository; §4.1 specifies the matching escaping scheme that
`decodeQueryValue` reverses (space, pipe, backslash, slash, newline,
carriage return and tab each escaped behind a backslash). -/
def encodeChar (c : Char) : List Char :=
  if c = ' ' then ['\\', 's']
  else if c = '|' then ['\\', 'p']
  else if c = '\\' then ['\\', '\\']
  else if c = '/' then ['\\', '/']
  else if c = '\n' then ['\\', 'n']
  else if c = '\r' then ['\\', 'r']
  else if c = '\t' then ['\\', 't']
  else [c]

/-- Modelled from the spec: encoding of a whole value by the remote
side, character by character. -/
def encode (s : List Char) : List Char := (s.map encodeChar).flatten

/-- The characters the escaping scheme of §4.1 is about. -/
def escAlphabet : List Char := [' ', '|', '\\', '/', '\n', '\r', '\t']

deriving instance DecidableEq for Except

example : readUntilErrorLine (str "a b\r\nerror id=0 msg=ok\n") =
    some [str "a b", str "error id=0 msg=ok"] := by decide
example : command (str "a=1\nerror id=0 msg=ok\n") =
    some (Except.ok [str "a=1"]) := by decide
example : decodeQueryValue (encode (str " \\|/\n\t")) = str " \\|/\n\t" := by decide
example : decodeQueryValue (str "a\\sb\\p\\\\\\/") = str "a b|\\/" := by decide

/-- Claim C5: the publish decision is true iff the new signature
differs from the last published one or the elapsed time since the last
publish meets or exceeds the forced-republish interval; on a publish
the new signature and the current time are recorded, otherwise the
recorded state is unchanged. -/
theorem claim_C5 (st : PublishState) (signature : List Char) (now forcedRefreshMs : Int) :
    ((publishStep st signature now forcedRefreshMs).1 = true ↔
      (some signature ≠ st.lastPublishedSignature ∨
        now - st.lastPublishedAt ≥ forcedRefreshMs))
    ∧ ((publishStep st signature now forcedRefreshMs).1 = true →
      (publishStep st signature now forcedRefreshMs).2 =
        { lastPublishedSignature := some signature, lastPublishedAt := now })
    ∧ ((publishStep st signature now forcedRefreshMs).1 = false →
      (publishStep st signature now forcedRefreshMs).2 = st) := by
  have hiff : shouldPublish st signature now forcedRefreshMs = true ↔
      (some signature ≠ st.lastPublishedSignature ∨
        now - st.lastPublishedAt ≥ forcedRefreshMs) := by
    simp [shouldPublish]
  by_cases hs : shouldPublish st signature now forcedRefreshMs = true
  · refine ⟨by simpa [publishStep, hs] using hiff.mp hs, fun _ => by simp [publishStep, hs],
      fun hfalse => ?_⟩
    simp [publishStep, hs] at hfalse
  · have hs' : shouldPublish st signature now forcedRefreshMs = false := by
      simpa using hs
    refine ⟨?_, fun htrue => ?_, fun _ => by simp [publishStep, hs']⟩
    · simp only [publishStep, hs', if_neg (by simp [hs'] : ¬shouldPublish st signature now forcedRefreshMs = true)]
      simpa [hiff] using hs
    · simp [publishStep, hs'] at htrue

/-- Claim C5 witness: with no previous publish, a fresh signature is
published and recorded. -/
theorem claim_C5_witness :
    (publishStep { lastPublishedSignature := none, lastPublishedAt := 0 } (str "x") 5 30000).1 = true
    ∧ (publishStep { lastPublishedSignature := none, lastPublishedAt := 0 } (str "x") 5 30000).2 =
      { lastPublishedSignature := some (str "x"), lastPublishedAt := 5 } :=
  ⟨by decide,
    (claim_C5 { lastPublishedSignature := none, lastPublishedAt := 0 } (str "x") 5 30000).2.1
      (by decide)⟩

/-- Claim C9: per-client detail enrichment is failure-isolated: the
result has one entry per input client, a client whose lookup fails is
returned untouched, and a client whose lookup succeeds is enriched —
the batch itself always completes. -/
theorem claim_C9 (lookup : List Char → Except Unit (List (List Char)))
    (clients : List ActiveClient) (i : Nat) (c : ActiveClient)
    (hc : clients[i]? = some c) :
    (fillConnectedTimes lookup clients).length = clients.length
    ∧ ((∃ e, lookup c.clid = Except.error e) →
      (fillConnectedTimes lookup clients)[i]? = some c)
    ∧ (∀ infoLines, lookup c.clid = Except.ok infoLines →
      (fillConnectedTimes lookup clients)[i]? = some (enrichClient c infoLines)) := by
  refine ⟨by simp [fillConnectedTimes], fun ⟨e, he⟩ => ?_, fun infoLines hok => ?_⟩
  · simp [fillConnectedTimes, List.getElem?_map, hc, he]
  · simp [fillConnectedTimes, List.getElem?_map, hc, hok]

/-- A concrete detail-lookup oracle: client "1" fails, all others
answer with a record that has a connected time and no streaming
fields. -/
def c9Lookup (clid : List Char) : Except Unit (List (List Char)) :=
  if clid = str "1" then Except.error ()
  else Except.ok [str "clid=2 client_type=0 connection_connected_time=7000"]

def c9ClientA : ActiveClient :=
  { clid := str "1", uid := str "u1", name := str "A", channelId := str "5"
    channelName := str "Lobby", inputMuted := false, outputMuted := false
    away := false, streaming := true, connectedMs := none }

def c9ClientB : ActiveClient :=
  { clid := str "2", uid := str "u2", name := str "B", channelId := str "5"
    channelName := str "Lobby", inputMuted := false, outputMuted := false
    away := false, streaming := true, connectedMs := none }

/-- Claim C9 witness: in a two-client batch where the first lookup
fails, the first client is kept untouched and the second is still
enriched. -/
theorem claim_C9_witness :
    (fillConnectedTimes c9Lookup [c9ClientA, c9ClientB])[0]? = some c9ClientA
    ∧ (fillConnectedTimes c9Lookup [c9ClientA, c9ClientB])[1]? =
      some (enrichClient c9ClientB [str "clid=2 client_type=0 connection_connected_time=7000"]) :=
  ⟨(claim_C9 c9Lookup [c9ClientA, c9ClientB] 0 c9ClientA (by decide)).2.1 ⟨(), by decide⟩,
    (claim_C9 c9Lookup [c9ClientA, c9ClientB] 1 c9ClientB (by decide)).2.2
      [str "clid=2 client_type=0 connection_connected_time=7000"] (by decide)⟩

/-- Claim C10: after a successful detail lookup the streaming flag is
recomputed solely from the detail record (true iff it carries
client_is_streaming=1 or client_is_recording=1, so a record lacking
both resets the flag to false), while the connected duration is only
overwritten by a finite non-negative number from the record. -/
theorem claim_C10 (client : ActiveClient) (infoLines : List (List Char)) :
    ((enrichClient client infoLines).streaming =
      (getField (parsePairs (((infoLines.find?
          (fun line => containsSub line (str "client_type="))).or infoLines.head?).getD []))
        (str "client_is_streaming") == some (str "1")
      || getField (parsePairs (((infoLines.find?
          (fun line => containsSub line (str "client_type="))).or infoLines.head?).getD []))
        (str "client_is_recording") == some (str "1")))
    ∧ (∀ raw : List Char,
      ((getField (parsePairs (((infoLines.find?
          (fun line => containsSub line (str "client_type="))).or infoLines.head?).getD []))
        (str "connection_connected_time")).or
       (getField (parsePairs (((infoLines.find?
          (fun line => containsSub line (str "client_type="))).or infoLines.head?).getD []))
        (str "client_connected_time"))).getD [] = raw →
      (∀ m : Int, raw ≠ [] → jsToNumber raw = some m → 0 ≤ m →
        (enrichClient client infoLines).connectedMs = some m)
      ∧ ((if raw = [] then none else jsToNumber raw) = none →
        (enrichClient client infoLines).connectedMs = client.connectedMs)
      ∧ (∀ m : Int, raw ≠ [] → jsToNumber raw = some m → m < 0 →
        (enrichClient client infoLines).connectedMs = client.connectedMs)) := by
  refine ⟨by simp [enrichClient], fun raw hraw => ⟨fun m hne hm hnonneg => ?_, fun hnone => ?_, fun m hne hm hneg => ?_⟩⟩
  · simp [enrichClient, hraw, if_neg hne, hm, if_pos hnonneg]
  · simp only [enrichClient, hraw, hnone]
  · simp [enrichClient, hraw, if_neg hne, hm, if_neg (not_le.mpr hneg)]

/-- Claim C10 witness: a successful detail record lacking both
streaming fields resets a previously-true streaming flag, and a record
with a valid connected time overwrites the duration. -/
theorem claim_C10_witness :
    (enrichClient c9ClientB [str "clid=2 client_type=0 connection_connected_time=7000"]).streaming
      = false
    ∧ (enrichClient c9ClientB
        [str "clid=2 client_type=0 connection_connected_time=7000"]).connectedMs = some 7000 := by
  constructor
  · have h := (claim_C10 c9ClientB [str "clid=2 client_type=0 connection_connected_time=7000"]).1
    rw [h]; decide
  · exact ((claim_C10 c9ClientB
      [str "clid=2 client_type=0 connection_connected_time=7000"]).2 (str "7000")
      (by decide)).1 7000 (by decide) (by decide) (by decide)

/-- Claim C4: every client in a parsed client list has a non-empty
name, clid and uid and stems from a record of real user type
(client_type = "0"); an empty or error-prefixed payload yields an
empty list rather than a failure. -/
theorem claim_C4 (payloadLine : List Char) (channelNameById : List (List Char × List Char)) :
    (∀ c ∈ parseClientList payloadLine channelNameById,
      c.name ≠ [] ∧ c.clid ≠ [] ∧ c.uid ≠ [] ∧
      ∃ r ∈ (splitOnChar '|' payloadLine).map parsePairs,
        getField r (str "client_type") = some (str "0") ∧ c = buildClient channelNameById r)
    ∧ ((payloadLine = [] ∨ (str "error ").isPrefixOf payloadLine) →
      parseClientList payloadLine channelNameById = []) := by
  constructor
  · intro c hc
    unfold parseClientList at hc
    split at hc
    · exact absurd hc (List.not_mem_nil c)
    · simp only [List.mem_filter, List.mem_map, Bool.and_eq_true, Bool.not_eq_true',
        List.isEmpty_eq_false, beq_iff_eq] at hc
      obtain ⟨⟨a, ⟨⟨a1, ha1, hpa⟩, htype⟩, hbuild⟩, ⟨hname, hclid⟩, huid⟩ := hc
      exact ⟨hname, hclid, huid, a, List.mem_map.mpr ⟨a1, ha1, hpa⟩, htype, hbuild.symm⟩
  · intro hguard
    unfold parseClientList
    split
    · rfl
    · next hno => exact absurd hguard hno

def c4Payload : List Char :=
  str "clid=1 client_type=0 client_unique_identifier=u client_nickname=Bob|clid=2 client_type=1"

def c4Client : ActiveClient :=
  buildClient [] (parsePairs (str "clid=1 client_type=0 client_unique_identifier=u client_nickname=Bob"))

/-- Claim C4 witness: the surviving client of a concrete payload has
non-empty name, clid and uid and stems from a client_type=0 record;
the error-prefixed payload parses to the empty list. -/
theorem claim_C4_witness :
    (c4Client.name ≠ [] ∧ c4Client.clid ≠ [] ∧ c4Client.uid ≠ [] ∧
      ∃ r ∈ (splitOnChar '|' c4Payload).map parsePairs,
        getField r (str "client_type") = some (str "0") ∧ c4Client = buildClient [] r)
    ∧ parseClientList (str "error id=1") [] = [] :=
  ⟨(claim_C4 c4Payload []).1 c4Client (by decide),
    (claim_C4 (str "error id=1") []).2 (by decide)⟩

/-- Claim C8: the signature is invariant under any permutation of the
client list. -/
theorem claim_C8 (clients1 clients2 : List ActiveClient) (h : clients1.Perm clients2) :
    signatureForClients clients1 = signatureForClients clients2 := by
  unfold signatureForClients
  congr 1
  haveI : IsAntisymm (List Char) (fun a b => a ≤ b) :=
    ⟨fun a b h1 h2 => le_antisymm h1 h2⟩
  exact List.eq_of_perm_of_sorted
    ((List.perm_insertionSort _ _).trans ((h.map clientKey).trans
      (List.perm_insertionSort _ _).symm))
    (List.sorted_insertionSort _ _) (List.sorted_insertionSort _ _)

def permClientA : ActiveClient :=
  { clid := str "1", uid := str "ua", name := str "Alice", channelId := str "5"
    channelName := str "Lobby", inputMuted := false, outputMuted := false
    away := false, streaming := false, connectedMs := none }

def permClientB : ActiveClient :=
  { clid := str "2", uid := str "ub", name := str "Bob", channelId := str "6"
    channelName := str "Den", inputMuted := true, outputMuted := false
    away := true, streaming := false, connectedMs := some 12 }

/-- Claim C8 witness: swapping a two-client list leaves the signature
unchanged. -/
theorem claim_C8_witness :
    signatureForClients [permClientA, permClientB] =
      signatureForClients [permClientB, permClientA] :=
  claim_C8 [permClientA, permClientB] [permClientB, permClientA]
    (List.Perm.swap permClientB permClientA [])

/-- The display-relevant content of one client: exactly the fields the
signature line is built from. -/
structure DisplayTuple where
  uid : List Char
  name : List Char
  channelId : List Char
  audio : List Char
  away : Bool
  streaming : Bool
deriving DecidableEq, Repr

/-- Project a client onto its display-relevant content. -/
def displayTuple (c : ActiveClient) : DisplayTuple :=
  { uid := c.uid, name := c.name, channelId := c.channelId
    audio := effectiveAudioState c, away := c.away, streaming := c.streaming }

/-- A client whose identity fields are free of the `|` field
separator (the source decoder can only put a pipe into a field via an
escaped pipe). -/
def pipeFreeClient (c : ActiveClient) : Prop :=
  '|' ∉ c.uid ∧ '|' ∉ c.name ∧ '|' ∉ c.channelId

instance (c : ActiveClient) : Decidable (pipeFreeClient c) := by
  unfold pipeFreeClient; infer_instance

lemma append_sep_inj (sep : Char) (a : List Char) :
    ∀ (b x y : List Char), sep ∉ a → sep ∉ b →
      a ++ sep :: x = b ++ sep :: y → a = b ∧ x = y := by
  induction a with
  | nil =>
    intro b x y _ hb h
    cases b with
    | nil => simpa using h
    | cons c b' =>
      simp only [List.nil_append, List.cons_append, List.cons.injEq] at h
      obtain ⟨h1, h2⟩ := h
      subst h1
      exact absurd (List.mem_cons_self _ _) hb
  | cons c a' ih =>
    intro b x y ha hb h
    cases b with
    | nil =>
      simp only [List.cons_append, List.nil_append, List.cons.injEq] at h
      obtain ⟨h1, h2⟩ := h
      subst h1
      exact absurd (List.mem_cons_self _ _) ha
    | cons d b' =>
      simp only [List.cons_append, List.cons.injEq] at h
      obtain ⟨h1, h2⟩ := h
      subst h1
      have ha' : sep ∉ a' := fun hm => ha (List.mem_cons_of_mem _ hm)
      have hb' : sep ∉ b' := fun hm => hb (List.mem_cons_of_mem _ hm)
      obtain ⟨he, hxy⟩ := ih b' x y ha' hb' h2
      exact ⟨by rw [he], hxy⟩

/-- The signature line written out as nested appends. -/
lemma clientKey_eq (c : ActiveClient) :
    clientKey c = c.uid ++ '|' :: (c.name ++ '|' :: (c.channelId ++ '|' ::
      (effectiveAudioState c ++ '|' :: ((if c.away then str "1" else str "0") ++ '|' ::
        (if c.streaming then str "1" else str "0"))))) := by
  simp [clientKey, joinSep, str, List.append_assoc]

lemma audio_cases (c : ActiveClient) :
    effectiveAudioState c = str "deafened" ∨ effectiveAudioState c = str "muted" ∨
      effectiveAudioState c = str "unmuted" := by
  cases ho : c.outputMuted <;> cases hi : c.inputMuted <;>
    simp [effectiveAudioState, ho, hi]

lemma audio_sep_free (c : ActiveClient) :
    '|' ∉ effectiveAudioState c ∧ '\n' ∉ effectiveAudioState c := by
  rcases audio_cases c with h | h | h <;> rw [h] <;> exact ⟨by decide, by decide⟩

lemma flag_pipe_free (b : Bool) : '|' ∉ (if b then str "1" else str "0") := by
  cases b <;> decide

lemma flag_inj (b1 b2 : Bool)
    (h : (if b1 then str "1" else str "0") = (if b2 then str "1" else str "0")) :
    b1 = b2 := by
  cases b1 <;> cases b2 <;> first | rfl | exact absurd h (by decide)

/-- The signature line of a display tuple. -/
def tupleKey (t : DisplayTuple) : List Char :=
  t.uid ++ '|' :: (t.name ++ '|' :: (t.channelId ++ '|' ::
    (t.audio ++ '|' :: ((if t.away then str "1" else str "0") ++ '|' ::
      (if t.streaming then str "1" else str "0")))))

lemma clientKey_eq_tupleKey (c : ActiveClient) : clientKey c = tupleKey (displayTuple c) := by
  rw [clientKey_eq]; rfl

/-- A display tuple whose string fields are free of the `|` field
separator. -/
def tupleOk (t : DisplayTuple) : Prop :=
  '|' ∉ t.uid ∧ '|' ∉ t.name ∧ '|' ∉ t.channelId ∧ '|' ∉ t.audio

lemma tupleKey_inj (a b : DisplayTuple) (ha : tupleOk a) (hb : tupleOk b)
    (h : tupleKey a = tupleKey b) : a = b := by
  unfold tupleKey at h
  obtain ⟨h1, h⟩ := append_sep_inj '|' _ _ _ _ ha.1 hb.1 h
  obtain ⟨h2, h⟩ := append_sep_inj '|' _ _ _ _ ha.2.1 hb.2.1 h
  obtain ⟨h3, h⟩ := append_sep_inj '|' _ _ _ _ ha.2.2.1 hb.2.2.1 h
  obtain ⟨h4, h⟩ := append_sep_inj '|' _ _ _ _ ha.2.2.2 hb.2.2.2 h
  obtain ⟨h5, h6⟩ := append_sep_inj '|' _ _ _ _ (flag_pipe_free a.away) (flag_pipe_free b.away) h
  cases a; cases b
  simp only at h1 h2 h3 h4 h5 h6
  simp [h1, h2, h3, h4, flag_inj _ _ h5, flag_inj _ _ h6]

lemma joinSep_cons_ne_nil (sep : Char) (y : List Char) (ys : List (List Char))
    (hy : y ≠ []) : joinSep [sep] (y :: ys) ≠ [] := by
  cases ys with
  | nil => simpa [joinSep] using hy
  | cons z zs => simp [joinSep]

lemma joinSep_cons_cons (sep : Char) (x x2 : List Char) (xs : List (List Char)) :
    joinSep [sep] (x :: x2 :: xs) = x ++ sep :: joinSep [sep] (x2 :: xs) := by
  simp [joinSep, List.append_assoc]

lemma perm_of_map_perm (P : DisplayTuple → Prop) (f : DisplayTuple → List Char)
    (hinj : ∀ a b, P a → P b → f a = f b → a = b) (as : List DisplayTuple) :
    ∀ bs : List DisplayTuple, (∀ a ∈ as, P a) → (∀ b ∈ bs, P b) →
      (as.map f).Perm (bs.map f) → as.Perm bs := by
  induction as with
  | nil =>
    intro bs _ _ hp
    have : bs.map f = [] := hp.symm.eq_nil
    rw [List.map_eq_nil_iff.mp this]
  | cons a as' ih =>
    intro bs has hbs hp
    have hfa : f a ∈ bs.map f := hp.subset (List.mem_cons_self _ _)
    obtain ⟨b, hbmem, hfb⟩ := List.mem_map.mp hfa
    have hab : b = a := hinj b a (hbs b hbmem) (has a (List.mem_cons_self _ _)) hfb
    subst hab
    obtain ⟨s, t, rfl⟩ := List.append_of_mem hbmem
    have hperm2 : ((b :: as').map f).Perm (f b :: (s.map f ++ t.map f)) := by
      refine hp.trans ?_
      rw [List.map_append, List.map_cons]
      exact List.perm_middle
    simp only [List.map_cons] at hperm2
    have htails : (as'.map f).Perm ((s ++ t).map f) := by
      have h3 := hperm2.cons_inv
      simpa using h3
    have hst : as'.Perm (s ++ t) := ih (s ++ t)
      (fun x hm => has x (List.mem_cons_of_mem _ hm))
      (fun x hm => hbs x (by
        rcases List.mem_append.mp hm with h1 | h1
        · exact List.mem_append.mpr (Or.inl h1)
        · exact List.mem_append.mpr (Or.inr (List.mem_cons_of_mem _ h1)))) htails
    exact (hst.cons b).trans List.perm_middle.symm

def sepClientA : ActiveClient :=
  { clid := str "1", uid := str "a|b", name := str "c", channelId := str "d"
    channelName := str "x", inputMuted := false, outputMuted := false
    away := false, streaming := false, connectedMs := none }

def sepClientB : ActiveClient :=
  { clid := str "1", uid := str "a", name := str "b|c", channelId := str "d"
    channelName := str "x", inputMuted := false, outputMuted := false
    away := false, streaming := false, connectedMs := none }

/-- Claim C1 counterexample: a uid containing the `|` separator (which
`decodeQueryValue` can produce from an escaped pipe) lets two client
lists with different member unique ids share one signature, so
signature equality alone does not imply the same member set. -/
theorem claim_C1_counterexample :
    signatureForClients [sepClientA] = signatureForClients [sepClientB]
    ∧ sepClientA.uid ≠ sepClientB.uid
    ∧ ¬ (([sepClientA].map (fun c => c.uid)).Perm ([sepClientB].map (fun c => c.uid))) := by
  refine ⟨by decide, by decide, ?_⟩
  intro hp
  have h1 := List.singleton_perm.mp hp.symm
  have h2 : sepClientB.uid = sepClientA.uid := by simpa using h1
  exact absurd h2 (by decide)

lemma joinSep_single_length (sep : Char) (xs : List (List Char)) :
    (joinSep [sep] xs).length = (xs.map List.length).sum + (xs.length - 1) := by
  induction xs with
  | nil => simp [joinSep]
  | cons x xs' ih =>
    cases xs' with
    | nil => simp [joinSep]
    | cons y t =>
      rw [joinSep_cons_cons]
      simp only [List.length_append, List.length_cons, List.map_cons, List.sum_cons] at ih ⊢
      omega

lemma joinSep_single_count (sep c : Char) (hc : c ≠ sep) (xs : List (List Char)) :
    (joinSep [sep] xs).count c = (xs.map (List.count c)).sum := by
  induction xs with
  | nil => simp [joinSep]
  | cons x xs' ih =>
    cases xs' with
    | nil => simp [joinSep]
    | cons y t =>
      rw [joinSep_cons_cons]
      rw [List.count_append, List.count_cons]
      simp only [List.map_cons, List.sum_cons] at ih ⊢
      rw [ih]
      simp [Ne.symm hc]

lemma append_count_split (sep : Char) (a : List Char) :
    ∀ (b x y : List Char), List.count sep a = List.count sep b →
      a ++ sep :: x = b ++ sep :: y → a = b ∧ x = y := by
  induction a with
  | nil =>
    intro b x y hcount h
    cases b with
    | nil => simpa using h
    | cons d b2 =>
      simp only [List.nil_append, List.cons_append, List.cons.injEq] at h
      obtain ⟨h1, h2⟩ := h
      subst h1
      rw [List.count_nil, List.count_cons_self] at hcount
      omega
  | cons d a2 ih =>
    intro b x y hcount h
    cases b with
    | nil =>
      simp only [List.cons_append, List.nil_append, List.cons.injEq] at h
      obtain ⟨h1, h2⟩ := h
      subst h1
      rw [List.count_nil, List.count_cons_self] at hcount
      omega
    | cons e b2 =>
      simp only [List.cons_append, List.cons.injEq] at h
      obtain ⟨h1, h2⟩ := h
      subst h1
      rw [List.count_cons, List.count_cons] at hcount
      have hcount2 : List.count sep a2 = List.count sep b2 := by omega
      obtain ⟨he, hxy⟩ := ih b2 x y hcount2 h2
      exact ⟨by rw [he], hxy⟩

/-- The shape every signature line of a pipe-free client has: a prefix
holding exactly four pipes, then the fifth pipe, then the single
streaming-flag character. -/
def wellFormedKey (k : List Char) : Prop :=
  ∃ pre c, k = pre ++ ['|', c] ∧ List.count '|' pre = 4 ∧ c ≠ '|'

lemma wellFormedKey_count (k : List Char) (h : wellFormedKey k) :
    List.count '|' k = 5 := by
  obtain ⟨pre, c, rfl, hpre, hc⟩ := h
  rw [List.count_append, hpre]
  simp [List.count_cons, Ne.symm hc]

lemma wellFormedKey_ne_nil (k : List Char) (h : wellFormedKey k) : k ≠ [] := by
  obtain ⟨pre, c, rfl, _, _⟩ := h
  simp

lemma clientKey_wellFormed (cl : ActiveClient) (h : pipeFreeClient cl) :
    wellFormedKey (clientKey cl) := by
  refine ⟨cl.uid ++ '|' :: (cl.name ++ '|' :: (cl.channelId ++ '|' ::
      (effectiveAudioState cl ++ '|' :: (if cl.away then str "1" else str "0")))),
    if cl.streaming then '1' else '0', ?_, ?_, ?_⟩
  · rw [clientKey_eq]
    cases hs : cl.streaming <;> simp [str, List.append_assoc]
  · have h0 : List.count '|' cl.uid = 0 := List.count_eq_zero.mpr h.1
    have h1 : List.count '|' cl.name = 0 := List.count_eq_zero.mpr h.2.1
    have h2 : List.count '|' cl.channelId = 0 := List.count_eq_zero.mpr h.2.2
    have h3 : List.count '|' (effectiveAudioState cl) = 0 :=
      List.count_eq_zero.mpr (audio_sep_free cl).1
    have h4 : List.count '|' (str "1") = 0 := by decide
    have h5 : List.count '|' (str "0") = 0 := by decide
    cases ha : cl.away <;>
      simp [List.count_append, List.count_cons, h0, h1, h2, h3, h4, h5]
  · cases hs : cl.streaming <;> simp

lemma wf_ne_cons_join (k kf k2 : List Char) (K3 : List (List Char))
    (hk : wellFormedKey k) (hkf : wellFormedKey kf) (hk2 : wellFormedKey k2) :
    k ≠ kf ++ '\n' :: joinSep ['\n'] (k2 :: K3) := by
  intro h
  have hc := congrArg (List.count '|') h
  rw [List.count_append, List.count_cons] at hc
  rw [joinSep_single_count '\n' '|' (by decide)] at hc
  rw [wellFormedKey_count k hk, wellFormedKey_count kf hkf] at hc
  rw [List.map_cons, List.sum_cons, wellFormedKey_count k2 hk2] at hc
  simp at hc

/-- Joining well-formed signature lines with newlines is injective even
when the lines themselves contain newlines: in the joined string the
i-th line separator must sit exactly two characters after the (5i)-th
pipe, because every line ends with its fifth pipe followed by the
single-character streaming flag. -/
lemma joinSep_wf_inj (K : List (List Char)) :
    ∀ K2 : List (List Char),
      (∀ k ∈ K, wellFormedKey k) → (∀ k ∈ K2, wellFormedKey k) →
      joinSep ['\n'] K = joinSep ['\n'] K2 → K = K2 := by
  induction K with
  | nil =>
    intro K2 _ hK2 h
    cases K2 with
    | nil => rfl
    | cons kf K2t =>
      exact absurd h.symm (joinSep_cons_ne_nil '\n' kf K2t
        (wellFormedKey_ne_nil kf (hK2 kf (List.mem_cons_self _ _))))
  | cons k Kt ih =>
    intro K2 hK hK2 h
    cases K2 with
    | nil =>
      exact absurd h (joinSep_cons_ne_nil '\n' k Kt
        (wellFormedKey_ne_nil k (hK k (List.mem_cons_self _ _))))
    | cons kf K2t =>
      cases Kt with
      | nil =>
        cases K2t with
        | nil =>
          simp only [joinSep] at h
          rw [h]
        | cons k2 K3 =>
          exfalso
          rw [joinSep_cons_cons] at h
          simp only [joinSep] at h
          exact wf_ne_cons_join k kf k2 K3 (hK k (List.mem_cons_self _ _))
            (hK2 kf (List.mem_cons_self _ _))
            (hK2 k2 (List.mem_cons_of_mem _ (List.mem_cons_self _ _))) h
      | cons k2 K3 =>
        cases K2t with
        | nil =>
          exfalso
          rw [joinSep_cons_cons] at h
          simp only [joinSep] at h
          exact wf_ne_cons_join kf k k2 K3 (hK2 kf (List.mem_cons_self _ _))
            (hK k (List.mem_cons_self _ _))
            (hK k2 (List.mem_cons_of_mem _ (List.mem_cons_self _ _))) h.symm
        | cons k2f K3f =>
          rw [joinSep_cons_cons, joinSep_cons_cons] at h
          obtain ⟨pre, c, hkeq, hpre, hcpipe⟩ := hK k (List.mem_cons_self _ _)
          obtain ⟨pref, cf, hkeqf, hpref, hcpipef⟩ := hK2 kf (List.mem_cons_self _ _)
          rw [hkeq, hkeqf] at h
          rw [List.append_assoc, List.append_assoc] at h
          simp only [List.cons_append, List.nil_append] at h
          obtain ⟨hpp, hrest⟩ := append_count_split '|' pre pref _ _
            (hpre.trans hpref.symm) h
          simp only [List.cons.injEq] at hrest
          have htail := ih (k2f :: K3f)
            (fun x hx => hK x (List.mem_cons_of_mem _ hx))
            (fun x hx => hK2 x (List.mem_cons_of_mem _ hx)) hrest.2.2
          rw [hkeq, hkeqf, hpp, hrest.1, htail]

/-- Claim C1 (amended): provided every client field entering the
signature is free of the `|` field separator, signature equality
implies that the two snapshots carry the same members with the same
display name, channel id, derived audio state, away flag and streaming
flag (equal multisets of display tuples), regardless of enumeration
order — fields may still contain newlines, since the well-formed line
shape makes the newline join unambiguous. -/
theorem claim_C1_amended (clients1 clients2 : List ActiveClient)
    (h1 : ∀ c ∈ clients1, pipeFreeClient c) (h2 : ∀ c ∈ clients2, pipeFreeClient c)
    (hsig : signatureForClients clients1 = signatureForClients clients2) :
    (clients1.map displayTuple).Perm (clients2.map displayTuple) := by
  have hcond1 : ∀ x ∈ List.insertionSort (· ≤ ·) (clients1.map clientKey),
      wellFormedKey x := by
    intro x hx
    have hx2 := (List.perm_insertionSort (· ≤ ·) (clients1.map clientKey)).subset hx
    obtain ⟨c, hc, rfl⟩ := List.mem_map.mp hx2
    exact clientKey_wellFormed c (h1 c hc)
  have hcond2 : ∀ x ∈ List.insertionSort (· ≤ ·) (clients2.map clientKey),
      wellFormedKey x := by
    intro x hx
    have hx2 := (List.perm_insertionSort (· ≤ ·) (clients2.map clientKey)).subset hx
    obtain ⟨c, hc, rfl⟩ := List.mem_map.mp hx2
    exact clientKey_wellFormed c (h2 c hc)
  have hkeys : List.insertionSort (· ≤ ·) (clients1.map clientKey)
      = List.insertionSort (· ≤ ·) (clients2.map clientKey) :=
    joinSep_wf_inj _ _ hcond1 hcond2 (by
      have hstr : str "\n" = ['\n'] := rfl
      rw [← hstr]
      exact hsig)
  have hperm : (clients1.map clientKey).Perm (clients2.map clientKey) :=
    ((List.perm_insertionSort (· ≤ ·) _).symm.trans
      (hkeys ▸ List.perm_insertionSort (· ≤ ·) _))
  have hfact : ∀ l : List ActiveClient,
      (l.map displayTuple).map tupleKey = l.map clientKey := by
    intro l
    rw [List.map_map]
    exact List.map_congr_left (fun c _ => (clientKey_eq_tupleKey c).symm)
  have hokmem : ∀ (l : List ActiveClient), (∀ c ∈ l, pipeFreeClient c) →
      ∀ t ∈ l.map displayTuple, tupleOk t := by
    intro l hl t ht
    obtain ⟨c, hc, rfl⟩ := List.mem_map.mp ht
    exact ⟨(hl c hc).1, (hl c hc).2.1, (hl c hc).2.2, (audio_sep_free c).1⟩
  refine perm_of_map_perm tupleOk tupleKey tupleKey_inj _ _
    (hokmem clients1 h1) (hokmem clients2 h2) ?_
  rw [hfact, hfact]
  exact hperm

def nlClientC : ActiveClient :=
  { clid := str "3", uid := str "uc", name := str "multi\nline", channelId := str "7"
    channelName := str "Den", inputMuted := false, outputMuted := true
    away := true, streaming := true, connectedMs := some 3 }

/-- Claim C1 (amended) witness: two pipe-free lists in opposite order,
one member carrying a newline inside its display name, have equal
signatures and indeed equal display-tuple multisets. -/
theorem claim_C1_witness :
    ([permClientA, nlClientC].map displayTuple).Perm
      ([nlClientC, permClientA].map displayTuple) :=
  claim_C1_amended [permClientA, nlClientC] [nlClientC, permClientA]
    (by decide) (by decide) (by decide)

lemma signature_length (l : List ActiveClient) :
    (signatureForClients l).length =
      (l.map (fun c => (clientKey c).length)).sum + (l.length - 1) := by
  unfold signatureForClients
  have hstr : str "\n" = ['\n'] := rfl
  rw [hstr, joinSep_single_length]
  have hperm := List.perm_insertionSort (· ≤ ·) (l.map clientKey)
  rw [(hperm.map List.length).sum_eq, hperm.length_eq]
  rw [List.map_map, List.length_map]
  rfl

lemma signature_count (c : Char) (hc : c ≠ '\n') (l : List ActiveClient) :
    (signatureForClients l).count c = (l.map (fun cl => (clientKey cl).count c)).sum := by
  unfold signatureForClients
  have hstr : str "\n" = ['\n'] := rfl
  rw [hstr, joinSep_single_count '\n' c hc]
  have hperm := List.perm_insertionSort (· ≤ ·) (l.map clientKey)
  rw [(hperm.map (List.count c)).sum_eq]
  rw [List.map_map]
  rfl

lemma clientKey_length (cl : ActiveClient) :
    (clientKey cl).length = cl.uid.length + cl.name.length + cl.channelId.length +
      (effectiveAudioState cl).length + 7 := by
  rw [clientKey_eq]
  have e1 : (str "1").length = 1 := rfl
  have e0 : (str "0").length = 1 := rfl
  cases ha : cl.away <;> cases hs : cl.streaming <;>
    simp [ha, hs, List.length_append, e1, e0] <;> omega

lemma clientKey_count_one (cl : ActiveClient) :
    (clientKey cl).count '1' = cl.uid.count '1' + cl.name.count '1' +
      cl.channelId.count '1' + (effectiveAudioState cl).count '1' +
      ((if cl.away then 1 else 0) + (if cl.streaming then 1 else 0)) := by
  rw [clientKey_eq]
  have e1 : (str "1").count '1' = 1 := by decide
  have e0 : (str "0").count '1' = 0 := by decide
  cases ha : cl.away <;> cases hs : cl.streaming <;>
    simp [ha, hs, List.count_append, List.count_cons, e1, e0] <;> omega

def mutedClientA : ActiveClient :=
  { clid := str "1", uid := str "u", name := str "n", channelId := str "c"
    channelName := str "cn", inputMuted := true, outputMuted := true
    away := false, streaming := false, connectedMs := none }

def mutedClientB : ActiveClient :=
  { clid := str "1", uid := str "u", name := str "n", channelId := str "c"
    channelName := str "cn", inputMuted := false, outputMuted := true
    away := false, streaming := false, connectedMs := none }

/-- Claim C3 counterexample: two lists equal in every per-member field
except one member's input-muted flag still share one signature when
that member is output-muted, because output-mute dominates input-mute
in the derived audio state — so a difference in the raw audio flags
does not always change the signature. -/
theorem claim_C3_counterexample :
    signatureForClients [mutedClientA] = signatureForClients [mutedClientB]
    ∧ mutedClientA.inputMuted ≠ mutedClientB.inputMuted
    ∧ mutedClientA.outputMuted = mutedClientB.outputMuted
    ∧ mutedClientA.uid = mutedClientB.uid
    ∧ mutedClientA.name = mutedClientB.name
    ∧ mutedClientA.channelId = mutedClientB.channelId
    ∧ mutedClientA.away = mutedClientB.away
    ∧ mutedClientA.streaming = mutedClientB.streaming := by
  decide

/-- Claim C3 (amended): for two client lists with the same members
that agree on every other per-member field, a difference in exactly
one member's derived audio state (where output-mute dominates
input-mute), away flag, or streaming flag makes the signatures
differ. -/
theorem claim_C3_amended (u v : List ActiveClient) (c1 c2 : ActiveClient)
    (huid : c1.uid = c2.uid) (hname : c1.name = c2.name)
    (hchan : c1.channelId = c2.channelId)
    (hdiff : (effectiveAudioState c1 ≠ effectiveAudioState c2 ∧
        c1.away = c2.away ∧ c1.streaming = c2.streaming)
      ∨ (effectiveAudioState c1 = effectiveAudioState c2 ∧
        c1.away ≠ c2.away ∧ c1.streaming = c2.streaming)
      ∨ (effectiveAudioState c1 = effectiveAudioState c2 ∧
        c1.away = c2.away ∧ c1.streaming ≠ c2.streaming)) :
    signatureForClients (u ++ c1 :: v) ≠ signatureForClients (u ++ c2 :: v) := by
  intro hsig
  rcases hdiff with ⟨hau, hw, hs⟩ | ⟨hau, hw, hs⟩ | ⟨hau, hw, hs⟩
  · have h1 := congrArg List.length hsig
    rw [signature_length, signature_length] at h1
    simp only [List.map_append, List.map_cons, List.sum_append, List.sum_cons,
      List.length_append, List.length_cons] at h1
    rw [clientKey_length, clientKey_length, huid, hname, hchan] at h1
    have hlen : (effectiveAudioState c1).length = (effectiveAudioState c2).length := by
      omega
    rcases audio_cases c1 with ha1 | ha1 | ha1 <;>
      rcases audio_cases c2 with ha2 | ha2 | ha2 <;>
      rw [ha1, ha2] at hlen hau <;>
      first
        | exact hau rfl
        | exact absurd hlen (by decide)
  · have h1 := congrArg (List.count '1') hsig
    rw [signature_count '1' (by decide), signature_count '1' (by decide)] at h1
    simp only [List.map_append, List.map_cons, List.sum_append, List.sum_cons] at h1
    rw [clientKey_count_one, clientKey_count_one, huid, hname, hchan, hau, hs] at h1
    cases hb1 : c1.away <;> cases hb2 : c2.away
    · rw [hb1, hb2] at hw; exact hw rfl
    · rw [hb1, hb2] at h1; simp at h1
    · rw [hb1, hb2] at h1; simp at h1
    · rw [hb1, hb2] at hw; exact hw rfl
  · have h1 := congrArg (List.count '1') hsig
    rw [signature_count '1' (by decide), signature_count '1' (by decide)] at h1
    simp only [List.map_append, List.map_cons, List.sum_append, List.sum_cons] at h1
    rw [clientKey_count_one, clientKey_count_one, huid, hname, hchan, hau, hw] at h1
    cases hb1 : c1.streaming <;> cases hb2 : c2.streaming
    · rw [hb1, hb2] at hs; exact hs rfl
    · rw [hb1, hb2] at h1; simp at h1
    · rw [hb1, hb2] at h1; simp at h1
    · rw [hb1, hb2] at hs; exact hs rfl

def awayClientA : ActiveClient :=
  { clid := str "1", uid := str "u", name := str "n", channelId := str "c"
    channelName := str "cn", inputMuted := false, outputMuted := false
    away := false, streaming := false, connectedMs := none }

def awayClientB : ActiveClient :=
  { clid := str "1", uid := str "u", name := str "n", channelId := str "c"
    channelName := str "cn", inputMuted := false, outputMuted := false
    away := true, streaming := false, connectedMs := none }

/-- Claim C3 (amended) witness: flipping one member's away flag
changes the signature. -/
theorem claim_C3_witness :
    signatureForClients [awayClientA] ≠ signatureForClients [awayClientB] :=
  claim_C3_amended [] [] awayClientA awayClientB rfl rfl rfl
    (Or.inr (Or.inl ⟨by decide, by decide, rfl⟩))

lemma self_mem_tails (s : List Char) : s ∈ List.tails s := by
  cases s <;> simp

lemma isPrefixOf_containsSub (s pat : List Char) (h : pat.isPrefixOf s = true) :
    containsSub s pat = true := by
  unfold containsSub
  rw [List.any_eq_true]
  exact ⟨s, self_mem_tails s, h⟩

lemma lineStep_shape (line : List Char) (rest : Option (List (List Char)))
    (hrest : ∀ ls, rest = some ls → ∃ body last, ls = body ++ [last] ∧
      (str "error id=").isPrefixOf last = true) :
    ∀ ls, lineStep line rest = some ls → ∃ body last, ls = body ++ [last] ∧
      (str "error id=").isPrefixOf last = true := by
  intro ls h
  unfold lineStep at h
  split at h
  · exact hrest ls h
  · split at h
    · next herr =>
        cases h
        exact ⟨[], line, rfl, herr⟩
    · rcases hmap : rest with _ | ls'
      · rw [hmap] at h; simp at h
      · rw [hmap] at h
        simp only [Option.map_some'] at h
        obtain ⟨body, last, hshape, hpre⟩ := hrest ls' hmap
        cases h
        exact ⟨line :: body, last, by rw [hshape, List.cons_append], hpre⟩

lemma readLoop_shape : ∀ (cur buf : List Char) (ls : List (List Char)),
    readLoop cur buf = some ls →
    ∃ body last, ls = body ++ [last] ∧ (str "error id=").isPrefixOf last = true := by
  intro cur buf
  induction cur, buf using readLoop.induct with
  | case1 cur =>
    intro ls h
    simp [readLoop] at h
  | case2 cur c hc =>
    intro ls h
    simp only [readLoop, if_pos hc] at h
    exact lineStep_shape _ none (fun ls2 hls2 => Option.noConfusion hls2) ls h
  | case3 cur c hc =>
    intro ls h
    simp only [readLoop, if_neg hc] at h
    exact Option.noConfusion h
  | case4 cur c d rest hc hpair ih =>
    intro ls h
    simp only [readLoop, if_pos hc, if_pos hpair] at h
    exact lineStep_shape _ _ ih ls h
  | case5 cur c d rest hc hpair ih =>
    intro ls h
    simp only [readLoop, if_pos hc, if_neg hpair] at h
    exact lineStep_shape _ _ ih ls h
  | case6 cur c d rest hc ih =>
    intro ls h
    simp only [readLoop, if_neg hc] at h
    exact ih ls h

/-- Claim C7: a completed command returns exactly the body lines before
the terminal status line (status line excluded) when the terminal
record's id field is "0", and fails with an error carrying the status
id and message whenever the id field differs from "0" or is absent. -/
theorem claim_C7 (buf : List Char) (lines : List (List Char))
    (h : readUntilErrorLine buf = some lines) :
    (getField (parsePairs (lines.getLastD [])) (str "id") = some (str "0") →
      command buf = some (Except.ok lines.dropLast))
    ∧ (getField (parsePairs (lines.getLastD [])) (str "id") ≠ some (str "0") →
      command buf = some (Except.error
        { id := getField (parsePairs (lines.getLastD [])) (str "id")
          msg := (getField (parsePairs (lines.getLastD [])) (str "msg")).getD
            (str "Unknown TeamSpeak query error") })) := by
  obtain ⟨body, last, rfl, hpre⟩ := readLoop_shape [] buf lines h
  have hlast : (body ++ [last]).getLastD [] = last := List.getLastD_concat _ _ _
  have hfind : ((body ++ [last]).reverse.find?
      (fun line => containsSub line (str "error id="))).getD [] = last := by
    rw [List.reverse_append]
    simp only [List.reverse_cons, List.reverse_nil, List.nil_append, List.singleton_append]
    rw [@List.find?_cons_of_pos _ (fun line => containsSub line (str "error id=")) last
      body.reverse (isPrefixOf_containsSub last _ hpre)]
    rfl
  rw [hlast]
  constructor
  · intro hid
    simp only [command, h, Option.map_some']
    rw [hfind, if_pos hid]
  · intro hid
    simp only [command, h, Option.map_some']
    rw [hfind, if_neg hid]

def c7Buf : List Char := str "a=1\nerror id=5 msg=boom\n"

/-- Claim C7 witness: a concrete reply whose terminal line carries
id=5 makes the command fail with that id and the decoded message. -/
theorem claim_C7_witness :
    command c7Buf = some (Except.error { id := some (str "5"), msg := str "boom" }) := by
  have h := (claim_C7 c7Buf [str "a=1", str "error id=5 msg=boom"] (by decide)).2 (by decide)
  rw [h]
  decide

lemma mem_mapSet (m : List (List Char × (List Char × Int))) (k : List Char)
    (v : List Char × Int) (k' : List Char) (v' : List Char × Int) :
    (k', v') ∈ mapSet m k v ↔ (k' = k ∧ v' = v) ∨ ((k', v') ∈ m ∧ k' ≠ k) := by
  unfold mapSet
  simp only [List.mem_append, List.mem_filter, List.mem_singleton, bne_iff_ne, ne_eq,
    Prod.mk.injEq]
  constructor
  · rintro (⟨hm, hne⟩ | ⟨h1, h2⟩)
    · exact Or.inr ⟨hm, hne⟩
    · exact Or.inl ⟨h1, h2⟩
  · rintro (⟨h1, h2⟩ | ⟨hm, hne⟩)
    · exact Or.inr ⟨h1, h2⟩
    · exact Or.inl ⟨hm, hne⟩

lemma foldl_depart_mem (g : List Char → List Char × Int)
    (skip : List Char → Bool) (prev : List (List Char)) :
    ∀ (m : List (List Char × (List Char × Int))) (k : List Char) (v : List Char × Int),
      (k, v) ∈ m →
      ∃ v', (k, v') ∈ prev.foldl
          (fun acc i => if skip i then acc else mapSet acc i (g i)) m
        ∧ (v' = v ∨ v' = g k) := by
  induction prev with
  | nil =>
    intro m k v hv
    exact ⟨v, hv, Or.inl rfl⟩
  | cons i prev' ih =>
    intro m k v hv
    simp only [List.foldl_cons]
    by_cases hskip : skip i = true
    · rw [if_pos hskip]
      exact ih m k v hv
    · rw [if_neg hskip]
      by_cases hki : k = i
      · subst hki
        have hmem : (k, g k) ∈ mapSet m k (g k) :=
          (mem_mapSet _ _ _ _ _).mpr (Or.inl ⟨rfl, rfl⟩)
        obtain ⟨v', hv', hor⟩ := ih _ k (g k) hmem
        refine ⟨v', hv', ?_⟩
        rcases hor with h | h <;> exact Or.inr h
      · have hmem : (k, v) ∈ mapSet m i (g i) :=
          (mem_mapSet _ _ _ _ _).mpr (Or.inr ⟨hv, hki⟩)
        exact ih _ k v hmem

/-- Claim C6: after every observe step the recently-departed map holds
no unique id present in the current member set and no record older
than the 30-minute window (so a rejoining member is removed and a
31-minute-old record is dropped), while a record of an absent member
whose recorded departure is still inside the window survives the step
(so a member absent for 29 minutes still appears). -/
theorem claim_C6 (st : TrackerState) (clients : List ActiveClient) (now : Int) :
    (∀ k nm t, (k, (nm, t)) ∈ ((observeStep st clients now).1).recentlyLeft →
      (∀ c ∈ clients, c.uid ≠ k) ∧ now - t ≤ recentlyLeftWindowMs)
    ∧ (∀ k nm t, (k, (nm, t)) ∈ st.recentlyLeft →
      (∀ c ∈ clients, c.uid ≠ k) → now - t ≤ recentlyLeftWindowMs →
      ∃ nm' t', (k, (nm', t')) ∈ ((observeStep st clients now).1).recentlyLeft) := by
  have hwin : (0 : Int) ≤ recentlyLeftWindowMs := by decide
  constructor
  · intro k nm t hmem
    simp only [observeStep] at hmem
    rw [List.mem_filter] at hmem
    obtain ⟨hin, hpred⟩ := hmem
    simp only [Bool.not_eq_true', Bool.or_eq_false_iff, decide_eq_false_iff_not,
      not_lt] at hpred
    constructor
    · intro c hc hck
      have hk : k ∈ clients.map (fun c => c.uid) := List.mem_map.mpr ⟨c, hc, hck⟩
      have : (clients.map (fun c => c.uid)).contains k = true := by simpa using hk
      rw [this] at hpred
      exact absurd hpred.1 (by simp)
    · exact hpred.2
  · intro k nm t hmem hnotin hage
    have hcont : (clients.map (fun c => c.uid)).contains k = false := by
      have : ¬ k ∈ clients.map (fun c => c.uid) := by
        intro hk
        obtain ⟨c, hc, hck⟩ := List.mem_map.mp hk
        exact hnotin c hc hck
      simpa using this
    cases hprev : st.lastClientIds with
    | none =>
      refine ⟨nm, t, ?_⟩
      simp only [observeStep, hprev]
      rw [List.mem_filter]
      refine ⟨hmem, ?_⟩
      simp [hcont, not_lt.mpr hage]
      exact hnotin
    | some prev =>
      obtain ⟨v', hv', hor⟩ := foldl_depart_mem
        (fun i => ((nameGet (clients.foldl (fun m c => nameSet m c.uid c.name)
          st.lastKnownNames) i).getD (str "Unknown"), now))
        (fun i => (clients.map (fun c => c.uid)).contains i) prev
        st.recentlyLeft k (nm, t) hmem
      refine ⟨v'.1, v'.2, ?_⟩
      simp only [observeStep, hprev]
      rw [List.mem_filter]
      constructor
      · exact hv'
      · rcases hor with rfl | rfl
        · simp [hcont, not_lt.mpr hage]
          exact hnotin
        · have hnn : ¬ (now - now > recentlyLeftWindowMs) := by omega
          simp [hcont, hnn]
          exact ⟨hnotin, hwin⟩

def c6State : TrackerState :=
  { lastClientIds := some [str "x"]
    recentlyLeft := [(str "x", (str "X", 0))]
    lastKnownNames := [(str "x", str "X")] }

/-- Claim C6 witness: a member absent for 29 minutes (1,740,000 ms
after its recorded departure at time 0) still appears in the departed
set after the observe step. -/
theorem claim_C6_witness :
    ∃ nm t, (str "x", (nm, t)) ∈ ((observeStep c6State [] 1740000).1).recentlyLeft :=
  (claim_C6 c6State [] 1740000).2 (str "x") (str "X") 0 (by decide) (by decide) (by decide)

/-- One unit of an escaped protocol value: a plain character or a
backslash-escape pair. -/
inductive EscAtom where
  | single : Char → EscAtom
  | esc : Char → EscAtom
deriving DecidableEq, Repr

/-- The characters of one atom. -/
def EscAtom.chars : EscAtom → List Char
  | EscAtom.single y => [y]
  | EscAtom.esc c => ['\\', c]

/-- Concatenate the characters of a list of atoms. -/
def joinAtoms (L : List EscAtom) : List Char := (L.map EscAtom.chars).flatten

/-- The effect of one decode pass (pattern backslash-`b`, replacement
character `d`) on one atom. -/
def decodeStage (b d : Char) : EscAtom → EscAtom
  | EscAtom.esc c => if c = b then EscAtom.single d else EscAtom.esc c
  | a => a

lemma joinAtoms_eq_nil (L : List EscAtom) (h : joinAtoms L = []) : L = [] := by
  cases L with
  | nil => rfl
  | cons a L' => cases a <;> simp [joinAtoms, EscAtom.chars] at h

lemma joinAtoms_cons_head (L : List EscAtom) (e : Char) (t : List Char)
    (h : joinAtoms L = e :: t) :
    (e = '\\' ∧ ∃ c L2, L = EscAtom.esc c :: L2) ∨ (∃ L2, L = EscAtom.single e :: L2) := by
  cases L with
  | nil => simp [joinAtoms] at h
  | cons a L2 =>
    cases a with
    | single y =>
      right
      refine ⟨L2, ?_⟩
      simp [joinAtoms, EscAtom.chars] at h
      rw [h.1]
    | esc c =>
      left
      simp [joinAtoms, EscAtom.chars] at h
      exact ⟨h.1.symm, c, L2, rfl⟩

lemma no_cross_match (b : Char) (L : List EscAtom)
    (hs : ∀ y, EscAtom.single y ∈ L → y ≠ b) (f : Char) (hf : f ≠ b)
    (e : Char) (t : List Char) (he : joinAtoms L = e :: t) :
    ¬(f = '\\' ∧ e = b) := by
  rintro ⟨hf', he'⟩
  rcases joinAtoms_cons_head L e t he with ⟨hee, _⟩ | ⟨L2, hL⟩
  · exact hf (hf'.trans (hee.symm.trans he'))
  · exact hs e (hL ▸ List.mem_cons_self _ _) he'

lemma replaceAll2_cons2_pos (a b : Char) (rep rest : List Char) :
    replaceAll2 a b rep (a :: b :: rest) = rep ++ replaceAll2 a b rep rest := by
  simp [replaceAll2]

lemma replaceAll2_cons2_neg (a b : Char) (rep : List Char) (c e : Char) (rest : List Char)
    (h : ¬(c = a ∧ e = b)) :
    replaceAll2 a b rep (c :: e :: rest) = c :: replaceAll2 a b rep (e :: rest) := by
  simp only [replaceAll2]
  rw [if_neg h]

lemma replaceAll2_joinAtoms (b d : Char) (L : List EscAtom)
    (hs : ∀ y, EscAtom.single y ∈ L → y ≠ b) :
    replaceAll2 '\\' b [d] (joinAtoms L) = joinAtoms (L.map (decodeStage b d)) := by
  induction L with
  | nil => rfl
  | cons a L' ih =>
    have hs' : ∀ y, EscAtom.single y ∈ L' → y ≠ b :=
      fun y hy => hs y (List.mem_cons_of_mem _ hy)
    cases a with
    | single y =>
      have hy : y ≠ b := hs y (List.mem_cons_self _ _)
      have hJ : joinAtoms (EscAtom.single y :: L') = y :: joinAtoms L' := by
        simp [joinAtoms, EscAtom.chars]
      rw [hJ]
      rcases he : joinAtoms L' with _ | ⟨e, t⟩
      · have hL' : L' = [] := joinAtoms_eq_nil L' he
        subst hL'
        simp [replaceAll2, joinAtoms, EscAtom.chars, decodeStage]
      · rw [replaceAll2_cons2_neg '\\' b [d] y e t
          (no_cross_match b L' hs' y hy e t he), ← he, ih hs']
        simp [joinAtoms, EscAtom.chars, decodeStage]
    | esc c =>
      have hJ : joinAtoms (EscAtom.esc c :: L') = '\\' :: c :: joinAtoms L' := by
        simp [joinAtoms, EscAtom.chars]
      rw [hJ]
      by_cases hc : c = b
      · subst hc
        rw [replaceAll2_cons2_pos '\\' c [d] (joinAtoms L'), ih hs']
        simp [joinAtoms, EscAtom.chars, decodeStage]
      · rw [replaceAll2_cons2_neg '\\' b [d] '\\' c (joinAtoms L')
          (fun hpair => hc hpair.2)]
        rcases he : joinAtoms L' with _ | ⟨e, t⟩
        · have hL' : L' = [] := joinAtoms_eq_nil L' he
          subst hL'
          simp [replaceAll2, joinAtoms, EscAtom.chars, decodeStage, hc]
        · rw [replaceAll2_cons2_neg '\\' b [d] c e t
            (no_cross_match b L' hs' c hc e t he), ← he, ih hs']
          simp [joinAtoms, EscAtom.chars, decodeStage, hc]

/-- Modelled from the spec: the escape code the remote encoder uses
for each escapable character. -/
def escCode (c : Char) : Char :=
  if c = ' ' then 's'
  else if c = '|' then 'p'
  else if c = '\\' then '\\'
  else if c = '/' then '/'
  else if c = '\n' then 'n'
  else if c = '\r' then 'r'
  else 't'

/-- The atom of one source character at each point of the decode
chain: encoded (stage 0), then after each of the seven passes. -/
def stage0 (c : Char) : EscAtom := EscAtom.esc (escCode c)

def stage1 (c : Char) : EscAtom := decodeStage 's' ' ' (stage0 c)

def stage2 (c : Char) : EscAtom := decodeStage 'p' '|' (stage1 c)

def stage3 (c : Char) : EscAtom := decodeStage '\\' '\\' (stage2 c)

def stage4 (c : Char) : EscAtom := decodeStage '/' '/' (stage3 c)

def stage5 (c : Char) : EscAtom := decodeStage 'n' '\n' (stage4 c)

def stage6 (c : Char) : EscAtom := decodeStage 'r' '\r' (stage5 c)

def stage7 (c : Char) : EscAtom := decodeStage 't' '\t' (stage6 c)

/-- Whether an atom, if it is a plain character, differs from `b`. -/
def atomSingleNeB (b : Char) : EscAtom → Bool
  | EscAtom.single y => y != b
  | EscAtom.esc _ => true

lemma singles_from_alphabet (stage : Char → EscAtom) (b : Char)
    (hall : ∀ c ∈ escAlphabet, atomSingleNeB b (stage c) = true)
    (s : List Char) (h : ∀ c ∈ s, c ∈ escAlphabet) :
    ∀ y, EscAtom.single y ∈ s.map stage → y ≠ b := by
  intro y hy
  obtain ⟨c, hc, hstage⟩ := List.mem_map.mp hy
  have h2 := hall c (h c hc)
  rw [hstage] at h2
  simpa [atomSingleNeB] using h2

lemma encode_eq_joinAtoms (s : List Char) (h : ∀ c ∈ s, c ∈ escAlphabet) :
    encode s = joinAtoms (s.map stage0) := by
  induction s with
  | nil => rfl
  | cons c s' ih =>
    have hc : c ∈ escAlphabet := h c (List.mem_cons_self _ _)
    have hech : encodeChar c = EscAtom.chars (stage0 c) := by
      simp only [escAlphabet, List.mem_cons, List.not_mem_nil, or_false] at hc
      rcases hc with rfl | rfl | rfl | rfl | rfl | rfl | rfl <;> rfl
    have ih' := ih (fun x hx => h x (List.mem_cons_of_mem _ hx))
    show (List.map encodeChar (c :: s')).flatten = _
    rw [List.map_cons, List.flatten_cons, hech]
    rw [show encode s' = (List.map encodeChar s').flatten from rfl] at ih'
    rw [ih']
    simp [joinAtoms]

lemma map_stage1 (s : List Char) :
    (s.map stage0).map (decodeStage 's' ' ') = s.map stage1 := by
  rw [List.map_map]
  rfl

lemma map_stage2 (s : List Char) :
    (s.map stage1).map (decodeStage 'p' '|') = s.map stage2 := by
  rw [List.map_map]
  rfl

lemma map_stage3 (s : List Char) :
    (s.map stage2).map (decodeStage '\\' '\\') = s.map stage3 := by
  rw [List.map_map]
  rfl

lemma map_stage4 (s : List Char) :
    (s.map stage3).map (decodeStage '/' '/') = s.map stage4 := by
  rw [List.map_map]
  rfl

lemma map_stage5 (s : List Char) :
    (s.map stage4).map (decodeStage 'n' '\n') = s.map stage5 := by
  rw [List.map_map]
  rfl

lemma map_stage6 (s : List Char) :
    (s.map stage5).map (decodeStage 'r' '\r') = s.map stage6 := by
  rw [List.map_map]
  rfl

lemma map_stage7 (s : List Char) :
    (s.map stage6).map (decodeStage 't' '\t') = s.map stage7 := by
  rw [List.map_map]
  rfl

lemma stage7_alphabet : ∀ c ∈ escAlphabet, stage7 c = EscAtom.single c := by decide

lemma joinAtoms_stage7 (s : List Char) (h : ∀ c ∈ s, c ∈ escAlphabet) :
    joinAtoms (s.map stage7) = s := by
  induction s with
  | nil => rfl
  | cons c s' ih =>
    rw [List.map_cons, stage7_alphabet c (h c (List.mem_cons_self _ _))]
    have ih' := ih (fun x hx => h x (List.mem_cons_of_mem _ hx))
    simp only [joinAtoms, List.map_cons, List.flatten_cons, EscAtom.chars]
    rw [show (List.map EscAtom.chars (List.map stage7 s')).flatten
      = joinAtoms (s'.map stage7) from rfl, ih']
    rfl

/-- Claim C2: for every string built from spaces, pipes, backslashes,
slashes and control whitespace (newline, carriage return, tab),
decoding the matching encoding returns the original string, with the
seven substitution passes applied in the exact source order. -/
theorem claim_C2 (s : List Char) (h : ∀ c ∈ s, c ∈ escAlphabet) :
    decodeQueryValue (encode s) = s := by
  unfold decodeQueryValue
  rw [encode_eq_joinAtoms s h]
  rw [replaceAll2_joinAtoms 's' ' ' _ (singles_from_alphabet stage0 's' (by decide) s h)]
  rw [map_stage1]
  rw [replaceAll2_joinAtoms 'p' '|' _ (singles_from_alphabet stage1 'p' (by decide) s h)]
  rw [map_stage2]
  rw [replaceAll2_joinAtoms '\\' '\\' _ (singles_from_alphabet stage2 '\\' (by decide) s h)]
  rw [map_stage3]
  rw [replaceAll2_joinAtoms '/' '/' _ (singles_from_alphabet stage3 '/' (by decide) s h)]
  rw [map_stage4]
  rw [replaceAll2_joinAtoms 'n' '\n' _ (singles_from_alphabet stage4 'n' (by decide) s h)]
  rw [map_stage5]
  rw [replaceAll2_joinAtoms 'r' '\r' _ (singles_from_alphabet stage5 'r' (by decide) s h)]
  rw [map_stage6]
  rw [replaceAll2_joinAtoms 't' '\t' _ (singles_from_alphabet stage6 't' (by decide) s h)]
  rw [map_stage7]
  exact joinAtoms_stage7 s h

def c2Sample : List Char := str " \\|/\n\r\t \\\\//"

/-- Claim C2 witness: a concrete string over the escape alphabet
survives an encode-decode round trip. -/
theorem claim_C2_witness : decodeQueryValue (encode c2Sample) = c2Sample :=
  claim_C2 c2Sample (by decide)
